import Mathlib

/-!
# Allen's mood machine (`main.cpp`)

A shallow embedding of the state pattern of `main.cpp`: the six `State`
subclasses, the static members of `StateManager` and `State`, the transition
routine `StateManager::updateAndCheckTransitions`, the six `updateMood`
methods, `expressMood`, and `InitializeStates`.

Modelling conventions.

* The three static variables (`StateManager::currentState`,
  `StateManager::states`, `State::moodLevel`) are the first three fields of
  `Machine`; every routine takes the machine and returns an `Outcome`.
* A `State*` is `Option Mood`: `none` is `nullptr`, `some s` is the pointer
  to the one object of class `s` that `InitializeStates` allocates.
* `std::map<int, State*>` is an association list kept in increasing key
  order; `operator[]` is `Registry.index` (it inserts a null entry for a
  missing key, as the C++ container does).
* `cout << line << endl` appends `line` to the field `out`. Only the lines
  written by the state classes are recorded (the menu printed by `main` is
  not part of the machine).
* The field `trace` is ghost state: it records, in call order, every call of
  `updateAndCheckTransitions` with its argument and every call of an
  `enter`/`exit` hook. No routine reads it.
* `rand()` is an input: `roll` is the value the call returns. Only
  `NeutralState::updateMood` and `AngryState::updateMood` call it.
* `int` values are integers; the one arithmetic operation, `moodLevel += 2`,
  is `addTwo`: when the sum exceeds `INT_MAX` (undefined behaviour in C++) it
  wraps around as 32-bit two's-complement addition does, and the call goes
  on, as the source has no check there.
* A `switch` whose cases all `return` is written as the chain of equality
  tests it abbreviates.
-/

namespace FSM

/-- The six concrete subclasses of `State`. -/
inductive Mood where
  | Happy
  | Neutral
  | Angry
  | Confused
  | Sad
  | Fearful
  deriving DecidableEq, Repr

/-- A `State*`: `none` is `nullptr`. -/
abbrev StatePtr := Option Mood

/-- The type `std::map<int, State*>`, as a key-ordered association list. -/
abbrev Registry := List (Int × StatePtr)

/-- Ghost events: calls of the transition routine and of the hooks. -/
inductive Event where
  | request (newState : Int)
  | exit (s : Mood)
  | enter (s : Mood)
  deriving DecidableEq, Repr

/-- The process state: the three static variables, the lines written to
`cout` by the state classes, and the ghost call trace. -/
structure Machine where
  currentState : StatePtr
  states : Registry
  moodLevel : Int
  out : List String
  trace : List Event
  deriving DecidableEq, Repr

/-- Ways in which a call leaves defined behaviour. -/
inductive Fault where
  | nullDeref
  deriving DecidableEq, Repr

/-- How a call ends: it returns (`continues`), it calls `::exit(0)`
(`terminates`), or it has undefined behaviour (`fault`). Each carries the
machine at that point. -/
inductive Outcome where
  | continues (m : Machine)
  | terminates (m : Machine)
  | fault (f : Fault) (m : Machine)
  deriving DecidableEq, Repr

/-- The largest value of a 32-bit `int`. -/
def INT_MAX : Int := 2147483647

/-- The smallest value of a 32-bit `int`. -/
def INT_MIN : Int := -2147483648

/-- The statement `moodLevel += 2` on a 32-bit `int`: the sum, less 2^32 when
it exceeds `INT_MAX` (two's-complement wrap-around; adding 2 to an `int`
value cannot pass `INT_MIN`). -/
def addTwo (moodLevel : Int) : Int :=
  if moodLevel + 2 > INT_MAX then moodLevel + 2 - 4294967296 else moodLevel + 2

/-- The machine the outcome carries. -/
def Outcome.machine : Outcome → Machine
  | .continues m => m
  | .terminates m => m
  | .fault _ m => m

/-! ## The registry (`std::map<int, State*>`) -/

/-- Lookup of a key (`std::map::find`). -/
def Registry.find : Registry → Int → Option StatePtr
  | [], _ => none
  | (k', v) :: rest, k => if k' = k then some v else Registry.find rest k

/-- Insertion of a key that is not present, keeping the key order. -/
def Registry.insert : Registry → Int → StatePtr → Registry
  | [], k, v => [(k, v)]
  | (k', v') :: rest, k, v =>
    if k < k' then (k, v) :: (k', v') :: rest
    else (k', v') :: Registry.insert rest k v

/-- Reading `states[k]`: the stored pointer, or a freshly inserted null
pointer when the key is missing. -/
def Registry.index (r : Registry) (k : Int) : StatePtr × Registry :=
  match r.find k with
  | some v => (v, r)
  | none => (none, r.insert k none)

/-- The assignment `states[k] = v`. -/
def Registry.assign : Registry → Int → StatePtr → Registry
  | [], k, v => [(k, v)]
  | (k', v') :: rest, k, v =>
    if k = k' then (k, v) :: rest
    else if k < k' then (k, v) :: (k', v') :: rest
    else (k', v') :: Registry.assign rest k v

/-! ## Texts written by the state classes -/

/-- The line each class prints in `enter()`. -/
def Mood.enterLine : Mood → String
  | .Happy => "A warm, genuine smile lights up Allen's face as he greets you. His eyes sparkle with an infectious joy, reflecting a sense of contentment and well-being."
  | .Neutral => "Allen takes a deep breath, steadying himself as he assesses his surroundings with a thoughtful gaze."
  | .Angry => "Allen's demeanor shifts abruptly, his brows furrowing and his jaw setting firm. A stormy expression takes over, signaling a brewing tempest of anger."
  | .Confused => "Allen pauses, a look of perplexity crossing his features. He scratches his head, clearly puzzled by the situation at hand."
  | .Sad => "A shadow falls over Allen's demeanor, his shoulders slumping slightly as he lets out a deep, wistful sigh. His eyes, once bright, now carry a hint of sorrow."
  | .Fearful => "Allen's eyes dart around nervously, a visible tension in his posture. He seems on edge, as if expecting something unsettling at any moment."

/-- The line each class prints in `expressMood()`. -/
def Mood.moodLine : Mood → String
  | .Happy => "Allen hums a cheerful tune, his steps light and carefree. 'Life's full of wonders, don't you think?' he says with a beaming smile, inviting you to share in his joy."
  | .Neutral => "Allen appears contemplative, responding to your presence with a measured curiosity. 'What's next?' he seems to ponder, neither anxious nor overly joyous."
  | .Angry => "With each word, Allen's voice grows sharper, his frustration palpable. 'Why does it have to be this way?' he demands, struggling to keep his composure."
  | .Confused => "'I'm not quite sure what to make of this,' Allen admits, his confusion evident as he tries to piece together the puzzle before him."
  | .Sad => "Allen's voice is soft, tinged with melancholy. 'Sometimes, I just feel a bit lost,' he confides, looking away to hide the vulnerability in his gaze."
  | .Fearful => "Allen's movements are jittery, a clear indication of his unease. 'It's hard to shake this feeling,' he murmurs, glancing around as if expecting something to emerge from the shadows."

/-- The line `NeutralState::updateMood` prints when the artifact is found. -/
def artifactLine : String :=
  "Suddenly, Allen stumbles upon a mysterious lunar artifact, sparking joy and excitement."

/-- The line `AngryState::updateMood` prints before `::exit(0)`. -/
def gameOverLine : String :=
  "Allen has had enough! He pulls out a ray gun and shoots you. Game over."

/-! ## Hooks and the transition routine -/

/-- The virtual `enter()`: every override prints its entry line. -/
def Mood.enter (s : Mood) (m : Machine) : Machine :=
  { m with out := m.out ++ [s.enterLine], trace := m.trace ++ [Event.enter s] }

/-- The virtual `exit()`: every override has an empty body. -/
def Mood.exit (s : Mood) (m : Machine) : Machine :=
  { m with trace := m.trace ++ [Event.exit s] }

/-- The routine `StateManager::updateAndCheckTransitions(int newState)`. -/
def updateAndCheckTransitions (m : Machine) (newState : Int) : Outcome :=
  let m0 : Machine := { m with trace := m.trace ++ [Event.request newState] }
  let m1 : Machine :=
    match m0.currentState with
    | some s => s.exit m0
    | none => m0
  let m2 : Machine :=
    { m1 with currentState := (m1.states.index newState).1,
              states := (m1.states.index newState).2 }
  match m2.currentState with
  | some s => .continues (s.enter m2)
  | none => .fault .nullDeref m2

/-! ## The six `updateMood` methods -/

/-- The method `HappyState::updateMood`. -/
def HappyState.updateMood (m : Machine) (playerApproach : Int) : Outcome :=
  if playerApproach = 2 then updateAndCheckTransitions m 1
  else if playerApproach = 3 then updateAndCheckTransitions m 3
  else if playerApproach = 4 then updateAndCheckTransitions m 4
  else if playerApproach = 5 then updateAndCheckTransitions m 5
  else .continues m

/-- The method `NeutralState::updateMood`; `roll` is the value of `rand()`. -/
def NeutralState.updateMood (m : Machine) (roll : Nat) (playerApproach : Int) : Outcome :=
  let findArtifactChance := roll % 50
  if findArtifactChance < 1 then
    updateAndCheckTransitions { m with out := m.out ++ [artifactLine] } 0
  else if playerApproach = 1 then updateAndCheckTransitions m 0
  else if playerApproach = 2 then updateAndCheckTransitions m 2
  else if playerApproach = 3 then updateAndCheckTransitions m 3
  else if playerApproach = 4 then updateAndCheckTransitions m 4
  else if playerApproach = 5 then updateAndCheckTransitions m 5
  else .continues m

/-- The method `AngryState::updateMood`; `roll` is the value of `rand()`. -/
def AngryState.updateMood (m : Machine) (roll : Nat) (playerApproach : Int) : Outcome :=
  let chance := roll % 10
  if chance = 0 then
    .terminates { m with out := m.out ++ [gameOverLine] }
  else if playerApproach = 1 then updateAndCheckTransitions m 1
  else .continues m

/-- The method `ConfusedState::updateMood`. -/
def ConfusedState.updateMood (m : Machine) (playerApproach : Int) : Outcome :=
  if playerApproach = 1 then updateAndCheckTransitions m 0
  else if playerApproach = 2 then updateAndCheckTransitions m 2
  else if playerApproach = 4 then updateAndCheckTransitions m 4
  else if playerApproach = 5 then updateAndCheckTransitions m 5
  else .continues m

/-- The method `SadState::updateMood`. -/
def SadState.updateMood (m : Machine) (playerApproach : Int) : Outcome :=
  if playerApproach = 5 then updateAndCheckTransitions m 5
  else if playerApproach = 4 then updateAndCheckTransitions m 4
  else if playerApproach = 3 then updateAndCheckTransitions m 3
  else if playerApproach = 2 then updateAndCheckTransitions m 2
  else if playerApproach = 1 then updateAndCheckTransitions m 1
  else if m.moodLevel > 2 then updateAndCheckTransitions m 0
  else if m.moodLevel > -2 then updateAndCheckTransitions m 1
  else .continues m

/-- The tail of `FearfulState::updateMood`: the tests on `moodLevel` that run
when no branch above them has returned. -/
def FearfulState.moodCheck (m : Machine) : Outcome :=
  if m.moodLevel > 0 then updateAndCheckTransitions m 1
  else if m.moodLevel > -2 then .continues m
  else .continues m

/-- The method `FearfulState::updateMood`. -/
def FearfulState.updateMood (m : Machine) (playerApproach : Int) : Outcome :=
  if playerApproach = 1 then
    FearfulState.moodCheck { m with moodLevel := addTwo m.moodLevel }
  else if playerApproach = 4 then updateAndCheckTransitions m 4
  else if playerApproach = 6 then updateAndCheckTransitions m 1
  else if playerApproach = 3 then updateAndCheckTransitions m 3
  else if playerApproach = 2 then updateAndCheckTransitions m 2
  else FearfulState.moodCheck m

/-- Virtual dispatch of `updateMood` on the class of the pointee. -/
def Mood.updateMood (s : Mood) (m : Machine) (roll : Nat) (playerApproach : Int) : Outcome :=
  match s with
  | .Happy => HappyState.updateMood m playerApproach
  | .Neutral => NeutralState.updateMood m roll playerApproach
  | .Angry => AngryState.updateMood m roll playerApproach
  | .Confused => ConfusedState.updateMood m playerApproach
  | .Sad => SadState.updateMood m playerApproach
  | .Fearful => FearfulState.updateMood m playerApproach

/-- The call `StateManager::currentState->updateMood(playerApproach)` of
`main`. -/
def updateMood (m : Machine) (roll : Nat) (playerApproach : Int) : Outcome :=
  match m.currentState with
  | some s => s.updateMood m roll playerApproach
  | none => .fault .nullDeref m

/-- The virtual `expressMood()`: every override prints its monologue line. -/
def Mood.expressMood (s : Mood) (m : Machine) : Machine :=
  { m with out := m.out ++ [s.moodLine] }

/-- The call `StateManager::currentState->expressMood()` of `main`. -/
def expressMood (m : Machine) : Outcome :=
  match m.currentState with
  | some s => .continues (s.expressMood m)
  | none => .fault .nullDeref m

/-! ## Start-up -/

/-- The values of the static variables before `main` runs. -/
def staticInit : Machine :=
  { currentState := none, states := [], moodLevel := 0, out := [], trace := [] }

/-- The six assignments of `InitializeStates`, applied to a registry. -/
def registerStates (r : Registry) : Registry :=
  (((((r.assign 0 (some Mood.Happy)).assign 1 (some Mood.Neutral)).assign 2
    (some Mood.Angry)).assign 3 (some Mood.Confused)).assign 4
    (some Mood.Sad)).assign 5 (some Mood.Fearful)

/-- The function `InitializeStates`, run on the static initial values. -/
def InitializeStates : Outcome :=
  updateAndCheckTransitions { staticInit with states := registerStates staticInit.states } 1

/-- The registry `InitializeStates` builds. -/
def registry : Registry :=
  [(0, some Mood.Happy), (1, some Mood.Neutral), (2, some Mood.Angry),
   (3, some Mood.Confused), (4, some Mood.Sad), (5, some Mood.Fearful)]

/-- The key under which `InitializeStates` registers the object of each
class. -/
def Mood.id : Mood → Int
  | .Happy => 0
  | .Neutral => 1
  | .Angry => 2
  | .Confused => 3
  | .Sad => 4
  | .Fearful => 5

/-- One pass through the body of the loop of `main` for a choice in 1..6:
`updateMood(choice)` and, when it returns, `expressMood()`. -/
def turn (m : Machine) (roll : Nat) (choice : Int) : Outcome :=
  match updateMood m roll choice with
  | .continues m' => expressMood m'
  | o => o

/-- The run of `main` on a list of turns (the value of `rand()` and the
choice of each turn), from an outcome of the start-up. -/
def run : Outcome → List (Nat × Int) → Outcome
  | .continues m, (roll, choice) :: rest => run (turn m roll choice) rest
  | o, _ => o

/-- The configurations of the machine that a run can be in: after
`InitializeStates`, after an `updateMood` with an approach in 1..6 and any
value of `rand()` that returns, and after an `expressMood`. -/
inductive Reachable : Machine → Prop where
  | init (m : Machine) (h : InitializeStates = .continues m) : Reachable m
  | update (m m' : Machine) (roll : Nat) (a : Int) (hm : Reachable m)
      (ha : 1 ≤ a ∧ a ≤ 6) (h : updateMood m roll a = .continues m') : Reachable m'
  | express (m m' : Machine) (hm : Reachable m)
      (h : expressMood m = .continues m') : Reachable m'

/-- Successive calls `currentState->updateMood(a)`, one per element of the
list (the value of `rand()` and the approach), stopping at the first call
that does not return. -/
def updateMoods : Outcome → List (Nat × Int) → Outcome
  | .continues m, (roll, a) :: rest => updateMoods (updateMood m roll a) rest
  | o, _ => o

/-- A call made by `main` on the current state. -/
inductive Call where
  | updateMood (roll : Nat) (playerApproach : Int)
  | expressMood
  deriving DecidableEq, Repr

/-- Successive calls on the current state, with any integer approaches,
stopping at the first call that does not return. -/
def calls : Outcome → List Call → Outcome
  | .continues m, Call.updateMood roll a :: rest => calls (updateMood m roll a) rest
  | .continues m, Call.expressMood :: rest => calls (expressMood m) rest
  | o, _ => o

/-- The function `CleanupStates`: `delete` on the pointer of every entry of
the registry, in key order, then `states.clear()`. The first component is
the list of pointers passed to `delete`. -/
def CleanupStates (m : Machine) : List StatePtr × Machine :=
  (m.states.map fun e => e.2, { m with states := [] })

/-- The number of turns of a run in which the Friendly choice (1) was handled
while the current state was Fearful. -/
def fearfulFriendlyCount : Outcome → List (Nat × Int) → Nat
  | .continues m, (roll, choice) :: rest =>
    (if m.currentState = some Mood.Fearful ∧ choice = 1 then 1 else 0) +
      fearfulFriendlyCount (turn m roll choice) rest
  | _, _ => 0

/-! ## The transition table of the specification -/

/-- The table of the specification, in its words: the target of each
(mood, approach) pair that has one, with the approaches numbered as in
`main` (1 Friendly, 2 Aggressive, 3 Confused, 4 Sad, 5 Fearful, 6 Neutral). -/
def specTable : Mood → Int → Option Mood
  | .Happy, a =>
    if a = 1 then some .Happy else if a = 2 then some .Neutral
    else if a = 3 then some .Confused else if a = 4 then some .Sad
    else if a = 5 then some .Fearful else if a = 6 then some .Happy else none
  | .Neutral, a =>
    if a = 1 then some .Happy else if a = 2 then some .Angry
    else if a = 3 then some .Confused else if a = 4 then some .Sad
    else if a = 5 then some .Fearful else if a = 6 then some .Neutral else none
  | .Angry, a =>
    if a = 1 then some .Neutral
    else if a = 2 ∨ a = 3 ∨ a = 4 ∨ a = 5 ∨ a = 6 then some .Angry else none
  | .Confused, a =>
    if a = 1 then some .Happy else if a = 2 then some .Angry
    else if a = 4 then some .Sad else if a = 5 then some .Fearful
    else if a = 3 then some .Confused else if a = 6 then some .Confused else none
  | .Sad, a =>
    if a = 1 then some .Neutral else if a = 2 then some .Angry
    else if a = 3 then some .Confused else if a = 4 then some .Sad
    else if a = 5 then some .Fearful else none
  | .Fearful, a =>
    if a = 2 then some .Angry else if a = 3 then some .Confused
    else if a = 4 then some .Sad else if a = 6 then some .Neutral else none

end FSM

namespace FSM

/-! ## Lemmas on the registry and the transition routine -/

theorem registerStates_nil : registerStates [] = registry := by
  decide

theorem index_registry (t : Mood) : registry.index t.id = (some t, registry) := by
  cases t <;> rfl

/-- With the registry of `InitializeStates`, a transition to the key of
class `t` returns, and its effect is explicit. -/
theorem transition_registry (m : Machine) (t : Mood) (h : m.states = registry) :
    updateAndCheckTransitions m t.id = .continues
      { currentState := some t, states := registry, moodLevel := m.moodLevel,
        out := m.out ++ [t.enterLine],
        trace := m.trace ++ [Event.request t.id] ++
          (match m.currentState with
           | some s => [Event.exit s]
           | none => []) ++ [Event.enter t] } := by
  obtain ⟨cur, states, ml, out, tr⟩ := m
  simp only at h
  subst h
  cases cur <;>
    simp [updateAndCheckTransitions, index_registry, Mood.exit, Mood.enter]

/-- A transition to the key of class `t` from a machine whose registry is the
one of `InitializeStates` returns with `t` current. -/
theorem transition_current (m : Machine) (t : Mood) (h : m.states = registry) :
    ∃ m', updateAndCheckTransitions m t.id = .continues m' ∧
      m'.currentState = some t ∧ m'.states = registry ∧ m'.moodLevel = m.moodLevel := by
  exact ⟨_, transition_registry m t h, rfl, rfl, rfl⟩

/-- `InitializeStates` returns, in Neutral, with the six classes registered. -/
theorem initialize_current :
    ∃ m0, InitializeStates = .continues m0 ∧ m0.currentState = some Mood.Neutral ∧
      m0.states = registry ∧ m0.moodLevel = 0 := by
  exact ⟨_, transition_registry _ Mood.Neutral registerStates_nil, rfl, rfl, rfl⟩

/-- One step along the specification's table, keeping the registry. -/
theorem table_step (m : Machine) (S T : Mood) (A : Int) (roll : Nat)
    (hcur : m.currentState = some S) (hreg : m.states = registry)
    (hN : S = Mood.Neutral → roll % 50 ≠ 0) (hA : S = Mood.Angry → roll % 10 ≠ 0)
    (hT : specTable S A = some T) :
    ∃ m', updateMood m roll A = .continues m' ∧ m'.currentState = some T ∧
      m'.states = registry := by
  have hN' : S = Mood.Neutral → ¬ roll % 50 < 1 := fun h => by have := hN h; omega
  obtain ⟨n0, h0, c0, s0, -⟩ := transition_current m Mood.Happy hreg
  obtain ⟨n1, h1, c1, s1, -⟩ := transition_current m Mood.Neutral hreg
  obtain ⟨n2, h2, c2, s2, -⟩ := transition_current m Mood.Angry hreg
  obtain ⟨n3, h3, c3, s3, -⟩ := transition_current m Mood.Confused hreg
  obtain ⟨n4, h4, c4, s4, -⟩ := transition_current m Mood.Sad hreg
  obtain ⟨n5, h5, c5, s5, -⟩ := transition_current m Mood.Fearful hreg
  simp only [Mood.id] at h0 h1 h2 h3 h4 h5
  cases S <;> simp only [specTable] at hT <;> split_ifs at hT <;>
    simp only [Option.some.injEq, reduceCtorEq] at hT <;> subst hT <;>
    simp only [true_implies, reduceCtorEq, false_implies] at hN' hA <;>
    simp [updateMood, hcur, Mood.updateMood, HappyState.updateMood,
      NeutralState.updateMood, AngryState.updateMood, ConfusedState.updateMood,
      SadState.updateMood, FearfulState.updateMood, hN', hA, *]

/-- C1: with both random gates on their non-triggering branch, for every
mood S, approach A and moodLevel, if the specification's table gives the
pair (S, A) the target T then `currentState->updateMood(A)` in a machine
whose current state is S (with the registry built by `InitializeStates`)
returns with current state T; and from the initial machine the approaches
Friendly, Aggressive, Aggressive, Friendly visit Happy, Neutral, Angry,
Neutral. -/
theorem C1_table_transitions :
    (∀ (m : Machine) (S T : Mood) (A : Int) (roll : Nat),
      m.currentState = some S → m.states = registry →
      (S = Mood.Neutral → roll % 50 ≠ 0) → (S = Mood.Angry → roll % 10 ≠ 0) →
      specTable S A = some T →
      ∃ m', updateMood m roll A = .continues m' ∧ m'.currentState = some T) ∧
    (∀ r1 r2 r3 r4 : Nat, r1 % 50 ≠ 0 → r3 % 50 ≠ 0 → r4 % 10 ≠ 0 →
      ∃ m0 m1 m2 m3 m4 : Machine,
        InitializeStates = .continues m0 ∧ m0.currentState = some Mood.Neutral ∧
        updateMood m0 r1 1 = .continues m1 ∧ m1.currentState = some Mood.Happy ∧
        updateMood m1 r2 2 = .continues m2 ∧ m2.currentState = some Mood.Neutral ∧
        updateMood m2 r3 2 = .continues m3 ∧ m3.currentState = some Mood.Angry ∧
        updateMood m3 r4 1 = .continues m4 ∧ m4.currentState = some Mood.Neutral) := by
  constructor
  · intro m S T A roll hcur hreg hN hA hT
    obtain ⟨m', h, c, -⟩ := table_step m S T A roll hcur hreg hN hA hT
    exact ⟨m', h, c⟩
  · intro r1 r2 r3 r4 g1 g3 g4
    obtain ⟨m0, e0, c0, s0, -⟩ := initialize_current
    obtain ⟨m1, e1, c1, s1⟩ := table_step m0 _ Mood.Happy 1 r1 c0 s0
      (fun _ => g1) (by simp) (by decide)
    obtain ⟨m2, e2, c2, s2⟩ := table_step m1 _ Mood.Neutral 2 r2 c1 s1
      (by simp) (by simp) (by decide)
    obtain ⟨m3, e3, c3, s3⟩ := table_step m2 _ Mood.Angry 2 r3 c2 s2
      (fun _ => g3) (by simp) (by decide)
    obtain ⟨m4, e4, c4, -⟩ := table_step m3 _ Mood.Neutral 1 r4 c3 s3
      (by simp) (fun _ => g4) (by decide)
    exact ⟨m0, m1, m2, m3, m4, e0, c0, e1, c1, e2, c2, e3, c3, e4, c4⟩

/-- C1 at a concrete machine: Happy with the Aggressive approach and the
roll 7 moves to Neutral. -/
theorem C1_table_transitions_witness :
    ∃ m', updateMood ⟨some Mood.Happy, registry, 0, [], []⟩ 7 2 = .continues m' ∧
      m'.currentState = some Mood.Neutral :=
  C1_table_transitions.1 ⟨some Mood.Happy, registry, 0, [], []⟩ Mood.Happy Mood.Neutral 2 7
    rfl rfl (by decide) (by decide) (by decide)

/-- C2: when the termination roll of the Angry state triggers
(`rand() % 10 == 0`), for every approach and every moodLevel
`AngryState::updateMood` ends the session: the outcome is `terminates`, the
current state is still Angry, moodLevel, registry and call trace are
unchanged (no transition, no hook), and the output grows by the game-over
line only. -/
theorem C2_angry_termination (m : Machine) (roll : Nat) (playerApproach : Int)
    (hcur : m.currentState = some Mood.Angry) (hroll : roll % 10 = 0) :
    updateMood m roll playerApproach = .terminates
      { currentState := some Mood.Angry, states := m.states, moodLevel := m.moodLevel,
        out := m.out ++ [gameOverLine], trace := m.trace } := by
  obtain ⟨cur, states, ml, out, tr⟩ := m
  simp only at hcur
  subst hcur
  simp [updateMood, Mood.updateMood, AngryState.updateMood, hroll]

/-- C2 at a concrete machine: Angry, moodLevel 2, roll 30, Friendly approach. -/
theorem C2_angry_termination_witness :
    updateMood ⟨some Mood.Angry, registry, 2, ["x"], []⟩ 30 1 = .terminates
      ⟨some Mood.Angry, registry, 2, ["x", gameOverLine], []⟩ :=
  C2_angry_termination ⟨some Mood.Angry, registry, 2, ["x"], []⟩ 30 1 rfl (by decide)

/-- C3: when the artifact roll of the Neutral state triggers
(`rand() % 50 == 0`), for every approach value `NeutralState::updateMood`
(with the registry built by `InitializeStates`) moves to Happy: the current
state is Happy, moodLevel and registry are unchanged, the output grows by the
artifact line followed by the entry line of Happy, and the one transition
requested is to key 0. -/
theorem C3_neutral_artifact (m : Machine) (roll : Nat) (playerApproach : Int)
    (hcur : m.currentState = some Mood.Neutral) (hreg : m.states = registry)
    (hroll : roll % 50 = 0) :
    updateMood m roll playerApproach = .continues
      { currentState := some Mood.Happy, states := m.states, moodLevel := m.moodLevel,
        out := m.out ++ [artifactLine, Mood.Happy.enterLine],
        trace := m.trace ++
          [Event.request 0, Event.exit Mood.Neutral, Event.enter Mood.Happy] } := by
  obtain ⟨cur, states, ml, out, tr⟩ := m
  simp only at hcur hreg
  subst hcur hreg
  have h := transition_registry ⟨some Mood.Neutral, registry, ml, out ++ [artifactLine], tr⟩
    Mood.Happy rfl
  simp only [Mood.id] at h
  simp [updateMood, Mood.updateMood, NeutralState.updateMood, hroll, h]

/-- C3 at a concrete machine: Neutral, roll 100, Aggressive approach. -/
theorem C3_neutral_artifact_witness :
    updateMood ⟨some Mood.Neutral, registry, 0, [], []⟩ 100 2 = .continues
      ⟨some Mood.Happy, registry, 0, [artifactLine, Mood.Happy.enterLine],
        [Event.request 0, Event.exit Mood.Neutral, Event.enter Mood.Happy]⟩ :=
  C3_neutral_artifact ⟨some Mood.Neutral, registry, 0, [], []⟩ 100 2 rfl rfl (by decide)

/-- C4: `InitializeStates`, run on the static initial values, returns a
machine whose registry holds exactly the keys 0..5, mapped to Happy, Neutral,
Angry, Confused, Sad, Fearful in this order, whose current state is Neutral,
whose moodLevel is 0, and whose only output is the entry line of Neutral;
the first transition calls no exit hook. -/
theorem C4_initialize :
    InitializeStates = .continues
      { currentState := some Mood.Neutral,
        states := [(0, some Mood.Happy), (1, some Mood.Neutral), (2, some Mood.Angry),
          (3, some Mood.Confused), (4, some Mood.Sad), (5, some Mood.Fearful)],
        moodLevel := 0,
        out := [Mood.Neutral.enterLine],
        trace := [Event.request 1, Event.enter Mood.Neutral] } :=
  rfl

/-- The transition routine with a key the registry maps to a non-null
pointer: the effect is explicit. -/
theorem transition_found (m : Machine) (newState : Int) (t : Mood)
    (h : m.states.find newState = some (some t)) :
    updateAndCheckTransitions m newState = .continues
      { currentState := some t, states := m.states, moodLevel := m.moodLevel,
        out := m.out ++ [t.enterLine],
        trace := m.trace ++ [Event.request newState] ++
          (match m.currentState with
           | some s => [Event.exit s]
           | none => []) ++ [Event.enter t] } := by
  obtain ⟨cur, states, ml, out, tr⟩ := m
  simp only at h
  cases cur <;>
    simp [updateAndCheckTransitions, Registry.index, h, Mood.exit, Mood.enter]

/-- The trace of the transition routine grows by the request and hook
events; the request is for the argument. -/
theorem transition_trace (m : Machine) (newState : Int) :
    ∃ l, (updateAndCheckTransitions m newState).machine.trace = m.trace ++ l ∧
      ∀ t, Event.request t ∈ l → t = newState := by
  obtain ⟨cur, states, ml, out, tr⟩ := m
  cases cur <;> simp only [updateAndCheckTransitions] <;> split <;>
    simp_all [Outcome.machine, Mood.enter, Mood.exit]

/-- A transition to a key in 0..5 records only requests in 0..5. -/
theorem transition_trace_range (m : Machine) (newState : Int)
    (hk : 0 ≤ newState ∧ newState ≤ 5) :
    ∃ l, (updateAndCheckTransitions m newState).machine.trace = m.trace ++ l ∧
      ∀ t, Event.request t ∈ l → 0 ≤ t ∧ t ≤ 5 := by
  obtain ⟨l, h1, h2⟩ := transition_trace m newState
  exact ⟨l, h1, fun t ht => by rw [h2 t ht]; exact hk⟩

/-- With the registry of `InitializeStates`, a transition to a key in 0..5
does not dereference a null pointer. -/
theorem transition_no_null (m : Machine) (newState : Int) (h : m.states = registry)
    (hk : 0 ≤ newState ∧ newState ≤ 5) (m' : Machine) :
    updateAndCheckTransitions m newState ≠ .fault .nullDeref m' := by
  have hk' : newState = 0 ∨ newState = 1 ∨ newState = 2 ∨ newState = 3 ∨ newState = 4 ∨
      newState = 5 := by omega
  rcases hk' with e | e | e | e | e | e <;> subst e
  · have e := transition_registry m Mood.Happy h
    simp only [Mood.id] at e
    simp [e]
  · have e := transition_registry m Mood.Neutral h
    simp only [Mood.id] at e
    simp [e]
  · have e := transition_registry m Mood.Angry h
    simp only [Mood.id] at e
    simp [e]
  · have e := transition_registry m Mood.Confused h
    simp only [Mood.id] at e
    simp [e]
  · have e := transition_registry m Mood.Sad h
    simp only [Mood.id] at e
    simp [e]
  · have e := transition_registry m Mood.Fearful h
    simp only [Mood.id] at e
    simp [e]

/-- C5: for every machine (any current state, registry, moodLevel and
output), every integer approach and every value of `rand()`, each call of
`updateAndCheckTransitions` that `updateMood` makes has an argument in
0..5; and when the registry is the one built by `InitializeStates` each of
these keys is found with a non-null pointer, so `updateMood` called on a
non-null current state never dereferences a null pointer. -/
theorem C5_targets_registered :
    (∀ (m : Machine) (roll : Nat) (playerApproach : Int),
      ∃ l, (updateMood m roll playerApproach).machine.trace = m.trace ++ l ∧
        ∀ t, Event.request t ∈ l → 0 ≤ t ∧ t ≤ 5) ∧
    (∀ t : Int, 0 ≤ t → t ≤ 5 → ∃ s, registry.index t = (some s, registry)) ∧
    (∀ (m : Machine) (S : Mood) (roll : Nat) (playerApproach : Int),
      m.currentState = some S → m.states = registry →
      ∀ m', updateMood m roll playerApproach ≠ .fault .nullDeref m') := by
  refine ⟨?_, ?_, ?_⟩
  · intro m roll playerApproach
    have stay : ∃ l, m.trace = m.trace ++ l ∧ ∀ t, Event.request t ∈ l → 0 ≤ t ∧ t ≤ 5 :=
      ⟨[], by simp, by simp⟩
    unfold updateMood
    split
    · rename_i s hs
      cases s <;>
        simp only [Mood.updateMood, HappyState.updateMood, NeutralState.updateMood,
          AngryState.updateMood, ConfusedState.updateMood, SadState.updateMood,
          FearfulState.updateMood, FearfulState.moodCheck] <;>
        split_ifs <;>
        first
          | exact stay
          | exact transition_trace_range _ _ (by omega)
    · exact stay
  · intro t h0 h5
    have : t = 0 ∨ t = 1 ∨ t = 2 ∨ t = 3 ∨ t = 4 ∨ t = 5 := by omega
    rcases this with h | h | h | h | h | h <;> subst h
    · exact ⟨Mood.Happy, rfl⟩
    · exact ⟨Mood.Neutral, rfl⟩
    · exact ⟨Mood.Angry, rfl⟩
    · exact ⟨Mood.Confused, rfl⟩
    · exact ⟨Mood.Sad, rfl⟩
    · exact ⟨Mood.Fearful, rfl⟩
  · intro m S roll playerApproach hcur hreg m'
    simp only [updateMood, hcur]
    cases S <;>
      simp only [Mood.updateMood, HappyState.updateMood, NeutralState.updateMood,
        AngryState.updateMood, ConfusedState.updateMood, SadState.updateMood,
        FearfulState.updateMood, FearfulState.moodCheck] <;>
      split_ifs <;>
      first
        | exact transition_no_null _ _ hreg (by omega) m'
        | exact transition_no_null
            { m with out := m.out ++ [artifactLine] } _ hreg (by omega) m'
        | exact transition_no_null
            { m with moodLevel := addTwo m.moodLevel } _ hreg (by omega) m'
        | simp

/-- C5 at a concrete machine: Fearful with the out-of-menu approach 9. -/
theorem C5_targets_registered_witness :
    updateMood ⟨some Mood.Fearful, registry, 0, [], []⟩ 3 9 ≠
      .fault .nullDeref ⟨some Mood.Fearful, registry, 0, [], []⟩ :=
  C5_targets_registered.2.2 ⟨some Mood.Fearful, registry, 0, [], []⟩ Mood.Fearful 3 9 rfl rfl
    ⟨some Mood.Fearful, registry, 0, [], []⟩

/-- Repeating a call that returns the machine unchanged returns it unchanged. -/
theorem updateMoods_fixed (m : Machine) (a : Int)
    (h : ∀ roll, updateMood m roll a = .continues m) (rolls : List Nat) :
    updateMoods (.continues m) (rolls.map fun roll => (roll, a)) = .continues m := by
  induction rolls with
  | nil => rfl
  | cons r rest ih => simp only [List.map_cons, updateMoods, h r, ih]

/-- C6: from Happy, for every moodLevel, registry, output and value of
`rand()`, `updateMood` with the Friendly (1) or Neutral (6) approach returns
the machine unchanged (mood Happy, same moodLevel, no transition, no line
written), and any number of such calls in a row returns the same machine as
one call. -/
theorem C6_happy_noop (m : Machine) (playerApproach : Int)
    (hcur : m.currentState = some Mood.Happy)
    (ha : playerApproach = 1 ∨ playerApproach = 6) :
    (∀ roll, updateMood m roll playerApproach = .continues m) ∧
    (∀ (roll : Nat) (rolls : List Nat),
      updateMoods (.continues m) ((roll :: rolls).map fun r => (r, playerApproach)) =
        updateMood m roll playerApproach) := by
  have h : ∀ roll, updateMood m roll playerApproach = .continues m := by
    intro roll
    rcases ha with e | e <;> subst e <;>
      simp [updateMood, hcur, Mood.updateMood, HappyState.updateMood]
  refine ⟨h, fun roll rolls => ?_⟩
  rw [updateMoods_fixed m playerApproach h, h]

/-- C6 at a concrete machine: Happy, moodLevel 4, three Neutral approaches. -/
theorem C6_happy_noop_witness :
    updateMoods (.continues ⟨some Mood.Happy, registry, 4, ["x"], []⟩)
      [(3, 6), (50, 6), (0, 6)] = .continues ⟨some Mood.Happy, registry, 4, ["x"], []⟩ :=
  ((C6_happy_noop ⟨some Mood.Happy, registry, 4, ["x"], []⟩ 6 rfl (Or.inr rfl)).2 3
    [50, 0]).trans
    ((C6_happy_noop ⟨some Mood.Happy, registry, 4, ["x"], []⟩ 6 rfl (Or.inr rfl)).1 3)

/-- With the registry of `InitializeStates`, a transition to a key in 0..5
returns with a non-null current state, the same registry and moodLevel. -/
theorem transition_result (m m' : Machine) (newState : Int) (hreg : m.states = registry)
    (hk : 0 ≤ newState ∧ newState ≤ 5)
    (h : updateAndCheckTransitions m newState = .continues m') :
    (∃ s, m'.currentState = some s) ∧ m'.states = registry ∧
      m'.moodLevel = m.moodLevel := by
  have hk' : newState = 0 ∨ newState = 1 ∨ newState = 2 ∨ newState = 3 ∨ newState = 4 ∨
      newState = 5 := by omega
  have key : ∀ t : Mood, newState = t.id → (∃ s, m'.currentState = some s) ∧
      m'.states = registry ∧ m'.moodLevel = m.moodLevel := by
    intro t ht
    obtain ⟨n, e, c, s, l⟩ := transition_current m t hreg
    rw [← ht, h] at e
    cases e
    exact ⟨⟨t, c⟩, s, l⟩
  rcases hk' with e | e | e | e | e | e
  · exact key Mood.Happy e
  · exact key Mood.Neutral e
  · exact key Mood.Angry e
  · exact key Mood.Confused e
  · exact key Mood.Sad e
  · exact key Mood.Fearful e

/-- What one `updateMood` that returns preserves: a non-null current state
and the registry. -/
theorem updateMood_preserves (m m' : Machine) (roll : Nat) (a : Int)
    (hcur : ∃ s, m.currentState = some s) (hreg : m.states = registry)
    (h : updateMood m roll a = .continues m') :
    (∃ s, m'.currentState = some s) ∧ m'.states = registry := by
  obtain ⟨s, hs⟩ := hcur
  have stay : ∀ n : Machine, Outcome.continues m = .continues n →
      (∃ s, n.currentState = some s) ∧ n.states = registry := by
    intro n hn
    cases hn
    exact ⟨⟨s, hs⟩, hreg⟩
  have move : ∀ (M : Machine) (k : Int), M.states = registry → 0 ≤ k ∧ k ≤ 5 →
      updateAndCheckTransitions M k = .continues m' →
      (∃ s, m'.currentState = some s) ∧ m'.states = registry := by
    intro M k hM hk hh
    obtain ⟨c, r, -⟩ := transition_result M m' k hM hk hh
    exact ⟨c, r⟩
  simp only [updateMood, hs] at h
  cases s <;>
    simp only [Mood.updateMood, HappyState.updateMood, NeutralState.updateMood,
      AngryState.updateMood, ConfusedState.updateMood, SadState.updateMood,
      FearfulState.updateMood, FearfulState.moodCheck] at h <;>
    split_ifs at h <;>
    first
      | exact stay m' h
      | exact Outcome.noConfusion h
      | exact move m _ hreg (by omega) h
      | exact move { m with out := m.out ++ [artifactLine] } _ hreg (by omega) h
      | exact move { m with moodLevel := addTwo m.moodLevel } _ hreg (by omega) h
      | (cases h; exact ⟨⟨_, hs⟩, hreg⟩)

/-- Every reachable machine has a non-null current state and the registry of
`InitializeStates`. -/
theorem reachable_inv (m : Machine) (h : Reachable m) :
    (∃ s, m.currentState = some s) ∧ m.states = registry := by
  induction h with
  | init m h =>
    obtain ⟨m0, e, c, s, -⟩ := initialize_current
    rw [e] at h
    cases h
    exact ⟨⟨_, c⟩, s⟩
  | update m m' roll a _ _ h ih =>
    exact updateMood_preserves m m' roll a ih.1 ih.2 h
  | express m m' _ h ih =>
    obtain ⟨⟨s, hs⟩, hr⟩ := ih
    simp only [expressMood, hs, Outcome.continues.injEq] at h
    subst h
    exact ⟨⟨s, hs⟩, hr⟩

/-- A turn of `main` with a choice in 1..6 leads from a reachable machine to
a reachable machine. -/
theorem turn_reachable (m m' : Machine) (roll : Nat) (choice : Int) (hm : Reachable m)
    (hc : 1 ≤ choice ∧ choice ≤ 6) (h : turn m roll choice = .continues m') :
    Reachable m' := by
  cases hu : updateMood m roll choice with
  | continues n =>
    simp only [turn, hu] at h
    exact Reachable.express n m' (Reachable.update m n roll choice hm hc hu) h
  | terminates n =>
    simp only [turn, hu] at h
    cases h
  | fault f n =>
    simp only [turn, hu] at h
    cases h

/-- A run of turns with choices in 1..6 that returns ends in a reachable
machine. -/
theorem run_reachable (l : List (Nat × Int)) (m m' : Machine) (hm : Reachable m)
    (hl : ∀ p ∈ l, 1 ≤ p.2 ∧ p.2 ≤ 6) (h : run (.continues m) l = .continues m') :
    Reachable m' := by
  induction l generalizing m with
  | nil =>
    simp only [run] at h
    cases h
    exact hm
  | cons p rest ih =>
    obtain ⟨roll, choice⟩ := p
    simp only [run] at h
    cases ht : turn m roll choice with
    | continues n =>
      rw [ht] at h
      exact ih n (turn_reachable m n roll choice hm (hl _ (List.mem_cons_self _ _)) ht)
        (fun p hp => hl p (List.mem_cons_of_mem _ hp)) h
    | terminates n =>
      rw [ht] at h
      cases rest <;> cases h
    | fault f n =>
      rw [ht] at h
      cases rest <;> cases h

/-- C7: in every reachable machine the current state is non-null and
`expressMood` returns the machine with the current state, moodLevel,
registry and call trace unchanged and the output grown by exactly one line,
the monologue line of the current mood; after an `updateMood` that returns,
this is the line of the mood that `updateMood` left current. -/
theorem C7_expressMood_pure (m : Machine) (h : Reachable m) :
    (∃ s, m.currentState = some s ∧
      expressMood m = .continues
        { currentState := m.currentState, states := m.states, moodLevel := m.moodLevel,
          out := m.out ++ [s.moodLine], trace := m.trace }) ∧
    (∀ (roll : Nat) (a : Int) (m' : Machine), 1 ≤ a ∧ a ≤ 6 →
      updateMood m roll a = .continues m' →
      ∃ s', m'.currentState = some s' ∧
        turn m roll a = .continues
          { currentState := m'.currentState, states := m'.states,
            moodLevel := m'.moodLevel, out := m'.out ++ [s'.moodLine],
            trace := m'.trace }) := by
  have key : ∀ n : Machine, Reachable n → ∃ s, n.currentState = some s ∧
      expressMood n = .continues
        { currentState := n.currentState, states := n.states, moodLevel := n.moodLevel,
          out := n.out ++ [s.moodLine], trace := n.trace } := by
    intro n hn
    obtain ⟨⟨s, hs⟩, -⟩ := reachable_inv n hn
    exact ⟨s, hs, by simp [expressMood, hs, Mood.expressMood]⟩
  refine ⟨key m h, fun roll a m' ha hu => ?_⟩
  obtain ⟨s', hs', he⟩ := key m' (Reachable.update m m' roll a h ha hu)
  exact ⟨s', hs', by simp only [turn, hu, he]⟩

/-- C7 at the machine `InitializeStates` returns: `expressMood` adds the
monologue line of Neutral and changes nothing else. -/
theorem C7_expressMood_pure_witness :
    expressMood ⟨some Mood.Neutral, registry, 0, [Mood.Neutral.enterLine],
        [Event.request 1, Event.enter Mood.Neutral]⟩ =
      .continues ⟨some Mood.Neutral, registry, 0,
        [Mood.Neutral.enterLine, Mood.Neutral.moodLine],
        [Event.request 1, Event.enter Mood.Neutral]⟩ := by
  obtain ⟨s, hs, he⟩ := (C7_expressMood_pure ⟨some Mood.Neutral, registry, 0,
    [Mood.Neutral.enterLine], [Event.request 1, Event.enter Mood.Neutral]⟩
    (Reachable.init _ rfl)).1
  cases hs
  exact he

/-- C8: `updateAndCheckTransitions(newState)` with a key the registry maps to
the object of class `t` calls, in this order, `exit()` on the outgoing state
(no call when the current state is null) and `enter()` on `t`, which is
current by then; it returns with current state `t`, moodLevel and registry
unchanged, and the output grown by exactly the entry line of `t`. This holds
also when `t` is already current: in Sad, the Sad approach (4) re-enters Sad
and writes its entry line again. -/
theorem C8_transition_effect :
    (∀ (m : Machine) (newState : Int) (s t : Mood),
      m.currentState = some s → m.states.find newState = some (some t) →
      updateAndCheckTransitions m newState = .continues
        { currentState := some t, states := m.states, moodLevel := m.moodLevel,
          out := m.out ++ [t.enterLine],
          trace := m.trace ++ [Event.request newState, Event.exit s, Event.enter t] }) ∧
    (∀ (m : Machine) (newState : Int) (t : Mood),
      m.currentState = none → m.states.find newState = some (some t) →
      updateAndCheckTransitions m newState = .continues
        { currentState := some t, states := m.states, moodLevel := m.moodLevel,
          out := m.out ++ [t.enterLine],
          trace := m.trace ++ [Event.request newState, Event.enter t] }) ∧
    (∀ (m : Machine) (roll : Nat),
      m.currentState = some Mood.Sad → m.states = registry →
      updateMood m roll 4 = .continues
        { currentState := some Mood.Sad, states := m.states, moodLevel := m.moodLevel,
          out := m.out ++ [Mood.Sad.enterLine],
          trace := m.trace ++
            [Event.request 4, Event.exit Mood.Sad, Event.enter Mood.Sad] }) := by
  refine ⟨?_, ?_, ?_⟩
  · intro m newState s t hs hf
    rw [transition_found m newState t hf, hs]
    simp
  · intro m newState t hs hf
    rw [transition_found m newState t hf, hs]
    simp
  · intro m roll hs hreg
    have hf : m.states.find 4 = some (some Mood.Sad) := by rw [hreg]; rfl
    simp [updateMood, hs, Mood.updateMood, SadState.updateMood,
      transition_found m 4 Mood.Sad hf]

/-- C8 at a concrete machine: in Sad, a transition to key 4 re-enters Sad. -/
theorem C8_transition_effect_witness :
    updateAndCheckTransitions ⟨some Mood.Sad, registry, 0, [], []⟩ 4 = .continues
      ⟨some Mood.Sad, registry, 0, [Mood.Sad.enterLine],
        [Event.request 4, Event.exit Mood.Sad, Event.enter Mood.Sad]⟩ :=
  C8_transition_effect.1 ⟨some Mood.Sad, registry, 0, [], []⟩ 4 Mood.Sad Mood.Sad rfl rfl

/-- A run of `main` from start-up, with choices in 1..6, that returns ends
in a reachable machine. -/
theorem run_init_reachable (l : List (Nat × Int)) (m' : Machine)
    (hl : ∀ p ∈ l, 1 ≤ p.2 ∧ p.2 ≤ 6) (h : run InitializeStates l = .continues m') :
    Reachable m' := by
  obtain ⟨m0, e, -⟩ := initialize_current
  rw [e] at h
  exact run_reachable l m0 m' (Reachable.init m0 e) hl h

/-- C9, evaluation at the failing input: the run of `main` with the choices
Fearful, Friendly, Fearful, Friendly, Sad (every `rand()` returning 1) ends
in a reachable machine in Sad with moodLevel 4, and there the Neutral
approach (6) moves to Happy, not to Neutral. -/
theorem C9_sad_neutral_gives_happy :
    ∃ m m', run InitializeStates [(1, 5), (1, 1), (1, 5), (1, 1), (1, 4)] = .continues m ∧
      Reachable m ∧ m.currentState = some Mood.Sad ∧ m.moodLevel = 4 ∧
      updateMood m 1 6 = .continues m' ∧ m'.currentState = some Mood.Happy ∧
      m'.currentState ≠ some Mood.Neutral := by
  refine ⟨_, _, rfl, ?_, rfl, rfl, rfl, rfl, by decide⟩
  exact run_init_reachable [(1, 5), (1, 1), (1, 5), (1, 1), (1, 4)] _ (by decide) rfl

/-- C10, evaluation at the failing input: the run of `main` with the choices
Fearful, Friendly, Fearful, Friendly (every `rand()` returning 1) returns in
a reachable machine whose mood is Neutral and whose moodLevel is 4, outside
the range -2..2. -/
theorem C10_moodLevel_reaches_four :
    ∃ m, run InitializeStates [(1, 5), (1, 1), (1, 5), (1, 1)] = .continues m ∧
      Reachable m ∧ m.currentState = some Mood.Neutral ∧ m.moodLevel = 4 ∧
      ¬ (-2 ≤ m.moodLevel ∧ m.moodLevel ≤ 2) := by
  refine ⟨_, rfl, ?_, rfl, rfl, by decide⟩
  exact run_init_reachable [(1, 5), (1, 1), (1, 5), (1, 1)] _ (by decide) rfl

/-! ## The mood level -/

/-- The transition routine never changes moodLevel, whatever the registry. -/
theorem transition_moodLevel (m : Machine) (newState : Int) :
    (updateAndCheckTransitions m newState).machine.moodLevel = m.moodLevel := by
  obtain ⟨cur, states, ml, out, tr⟩ := m
  cases cur <;> simp only [updateAndCheckTransitions] <;> split <;>
    simp_all [Outcome.machine, Mood.enter, Mood.exit]

/-- Where the sum is at most `INT_MAX`, `addTwo` is the sum. -/
theorem addTwo_of_le (x : Int) (h : x + 2 ≤ INT_MAX) : addTwo x = x + 2 := by
  unfold addTwo
  rw [if_neg (by omega)]

/-- Where the sum exceeds `INT_MAX`, `addTwo` is the sum less 2^32. -/
theorem addTwo_of_gt (x : Int) (h : INT_MAX < x + 2) : addTwo x = x + 2 - 4294967296 := by
  unfold addTwo
  rw [if_pos h]

/-- On `int` values `addTwo` is two's-complement addition of 2 modulo 2^32. -/
theorem addTwo_wrap (x : Int) (h0 : INT_MIN ≤ x) (h1 : x ≤ INT_MAX) :
    addTwo x = (x + 2 + 2147483648) % 4294967296 - 2147483648 := by
  unfold addTwo INT_MAX
  unfold INT_MIN INT_MAX at *
  split_ifs <;> omega

/-- The moodLevel after `updateMood`, for every machine: `addTwo` of it when
the current state is Fearful and the approach is 1; unchanged in every other
case. -/
theorem updateMood_moodLevel (m : Machine) (roll : Nat) (a : Int) :
    (updateMood m roll a).machine.moodLevel =
      if m.currentState = some Mood.Fearful ∧ a = 1
      then addTwo m.moodLevel else m.moodLevel := by
  unfold updateMood
  split
  · rename_i s hs
    cases s <;>
      simp only [Mood.updateMood, HappyState.updateMood, NeutralState.updateMood,
        AngryState.updateMood, ConfusedState.updateMood, SadState.updateMood,
        FearfulState.updateMood, FearfulState.moodCheck, hs, Option.some.injEq,
        reduceCtorEq, false_and, if_false, true_and] <;>
      split_ifs <;>
      first
        | rfl
        | exact transition_moodLevel _ _
  · rename_i hs
    simp [hs, Outcome.machine]

/-- A transition from a machine with current state `s` and the registry of
`InitializeStates` to the key of class `t`: the machine it returns. -/
theorem transition_from (m : Machine) (s t : Mood) (hcur : m.currentState = some s)
    (hreg : m.states = registry) :
    updateAndCheckTransitions m t.id = .continues
      { currentState := some t, states := m.states, moodLevel := m.moodLevel,
        out := m.out ++ [t.enterLine],
        trace := m.trace ++ [Event.request t.id, Event.exit s, Event.enter t] } := by
  rw [transition_registry m t hreg, hcur, hreg]
  simp

/-- The Friendly approach in Fearful. -/
theorem fearful_friendly_step (m : Machine) (roll : Nat)
    (hcur : m.currentState = some Mood.Fearful) (hreg : m.states = registry) :
    updateMood m roll 1 =
      if addTwo m.moodLevel > 0 then .continues
        { currentState := some Mood.Neutral, states := m.states,
          moodLevel := addTwo m.moodLevel, out := m.out ++ [Mood.Neutral.enterLine],
          trace := m.trace ++
            [Event.request 1, Event.exit Mood.Fearful, Event.enter Mood.Neutral] }
      else .continues
        { currentState := some Mood.Fearful, states := m.states,
          moodLevel := addTwo m.moodLevel, out := m.out, trace := m.trace } := by
  obtain ⟨cur, states, ml, out, tr⟩ := m
  simp only at hcur hreg
  subst hcur hreg
  have e := transition_from ⟨some Mood.Fearful, registry, addTwo ml, out, tr⟩ Mood.Fearful
    Mood.Neutral rfl rfl
  simp only [Mood.id] at e
  simp only [updateMood, Mood.updateMood, FearfulState.updateMood, if_true,
    FearfulState.moodCheck, e, ite_self]

/-- The Fearful approach in Fearful. -/
theorem fearful_fearful_step (m : Machine) (roll : Nat)
    (hcur : m.currentState = some Mood.Fearful) (hreg : m.states = registry) :
    updateMood m roll 5 =
      if m.moodLevel > 0 then .continues
        { currentState := some Mood.Neutral, states := m.states,
          moodLevel := m.moodLevel, out := m.out ++ [Mood.Neutral.enterLine],
          trace := m.trace ++
            [Event.request 1, Event.exit Mood.Fearful, Event.enter Mood.Neutral] }
      else .continues m := by
  obtain ⟨cur, states, ml, out, tr⟩ := m
  simp only at hcur hreg
  subst hcur hreg
  have e := transition_from ⟨some Mood.Fearful, registry, ml, out, tr⟩ Mood.Fearful
    Mood.Neutral rfl rfl
  simp only [Mood.id] at e
  simp only [updateMood, Mood.updateMood, FearfulState.updateMood,
    FearfulState.moodCheck, e]
  split_ifs <;> simp_all

/-- The Neutral approach in Sad. -/
theorem sad_neutral_step (m : Machine) (roll : Nat)
    (hcur : m.currentState = some Mood.Sad) (hreg : m.states = registry) :
    updateMood m roll 6 =
      if m.moodLevel > 2 then .continues
        { currentState := some Mood.Happy, states := m.states,
          moodLevel := m.moodLevel, out := m.out ++ [Mood.Happy.enterLine],
          trace := m.trace ++
            [Event.request 0, Event.exit Mood.Sad, Event.enter Mood.Happy] }
      else if m.moodLevel > -2 then .continues
        { currentState := some Mood.Neutral, states := m.states,
          moodLevel := m.moodLevel, out := m.out ++ [Mood.Neutral.enterLine],
          trace := m.trace ++
            [Event.request 1, Event.exit Mood.Sad, Event.enter Mood.Neutral] }
      else .continues m := by
  obtain ⟨cur, states, ml, out, tr⟩ := m
  simp only at hcur hreg
  subst hcur hreg
  have e0 := transition_from ⟨some Mood.Sad, registry, ml, out, tr⟩ Mood.Sad Mood.Happy
    rfl rfl
  have e1 := transition_from ⟨some Mood.Sad, registry, ml, out, tr⟩ Mood.Sad Mood.Neutral
    rfl rfl
  simp only [Mood.id] at e0 e1
  simp only [updateMood, Mood.updateMood, SadState.updateMood, e0, e1]
  split_ifs <;> simp_all

/-- C11, counterexample: in Fearful with moodLevel 2147483646 (an `int`
value) the Friendly approach returns with moodLevel -2147483648, not
2147483648: the addition `moodLevel += 2` overflows and wraps around. -/
theorem C11_counterexample :
    (2147483646 : Int) ≤ INT_MAX ∧
    updateMood ⟨some Mood.Fearful, registry, 2147483646, [], []⟩ 1 1 =
      .continues ⟨some Mood.Fearful, registry, -2147483648, [], []⟩ ∧
    (updateMood ⟨some Mood.Fearful, registry, 2147483646, [], []⟩ 1 1).machine.moodLevel ≠
      2147483646 + 2 := by
  have e : updateMood ⟨some Mood.Fearful, registry, 2147483646, [], []⟩ 1 1 =
      .continues ⟨some Mood.Fearful, registry, -2147483648, [], []⟩ := by
    rw [fearful_friendly_step _ 1 rfl rfl]
    rfl
  refine ⟨by decide, e, ?_⟩
  rw [e]
  decide

/-- C11, amended: for every machine, mood S, approach, value of `rand()` and
moodLevel, `updateMood` leaves moodLevel unchanged unless S is Fearful and
the approach is Friendly (1); in that case, whenever the sum is an `int`
value (moodLevel + 2 ≤ INT_MAX), moodLevel afterwards is moodLevel before
plus 2, and with the registry of `InitializeStates` the call returns.
`updateAndCheckTransitions` and `expressMood` never change moodLevel. -/
theorem C11_moodLevel_frame :
    (∀ (m : Machine) (S : Mood) (roll : Nat) (a : Int),
      m.currentState = some S → ¬ (S = Mood.Fearful ∧ a = 1) →
      (updateMood m roll a).machine.moodLevel = m.moodLevel) ∧
    (∀ (m : Machine) (roll : Nat),
      m.currentState = some Mood.Fearful → m.moodLevel + 2 ≤ INT_MAX →
      (updateMood m roll 1).machine.moodLevel = m.moodLevel + 2) ∧
    (∀ (m : Machine) (roll : Nat),
      m.currentState = some Mood.Fearful → m.states = registry →
      m.moodLevel + 2 ≤ INT_MAX →
      ∃ m', updateMood m roll 1 = .continues m' ∧ m'.moodLevel = m.moodLevel + 2) ∧
    (∀ (m : Machine) (newState : Int),
      (updateAndCheckTransitions m newState).machine.moodLevel = m.moodLevel) ∧
    (∀ m : Machine, (expressMood m).machine.moodLevel = m.moodLevel) := by
  refine ⟨?_, ?_, ?_, transition_moodLevel, ?_⟩
  · intro m S roll a hcur hne
    rw [updateMood_moodLevel, if_neg]
    rintro ⟨hf, ha⟩
    rw [hcur] at hf
    exact hne ⟨Option.some.inj hf, ha⟩
  · intro m roll hcur hmax
    rw [updateMood_moodLevel, if_pos ⟨hcur, rfl⟩, addTwo_of_le _ hmax]
  · intro m roll hcur hreg hmax
    rw [fearful_friendly_step m roll hcur hreg, addTwo_of_le _ hmax]
    split_ifs <;> exact ⟨_, rfl, rfl⟩
  · intro m
    unfold expressMood
    split <;> rfl

/-- C11, amended, at a concrete machine: Fearful with moodLevel 0 and the Friendly
approach gives moodLevel 2. -/
theorem C11_moodLevel_frame_witness :
    (updateMood ⟨some Mood.Fearful, registry, 0, [], []⟩ 3 1).machine.moodLevel = 0 + 2 :=
  C11_moodLevel_frame.2.1 ⟨some Mood.Fearful, registry, 0, [], []⟩ 3 rfl (by decide)

/-! ## Dependence of the next mood on moodLevel -/

/-- C12, counterexample: the runs of `main` with the choices Fearful, and
Fearful, Friendly, Fearful (every `rand()` returning 1) end in two reachable
machines with the same current mood Fearful (moodLevel 0 and 2); the Fearful
approach (5) leaves the first in Fearful and moves the second to Neutral. -/
theorem C12_counterexample :
    ∃ m1 m2 m1' m2', run InitializeStates [(1, 5)] = .continues m1 ∧
      run InitializeStates [(1, 5), (1, 1), (1, 5)] = .continues m2 ∧
      Reachable m1 ∧ Reachable m2 ∧
      m1.currentState = some Mood.Fearful ∧ m2.currentState = some Mood.Fearful ∧
      updateMood m1 1 5 = .continues m1' ∧ updateMood m2 1 5 = .continues m2' ∧
      m1'.currentState = some Mood.Fearful ∧ m2'.currentState = some Mood.Neutral ∧
      m1'.currentState ≠ m2'.currentState := by
  refine ⟨_, _, _, _, rfl, rfl, ?_, ?_, rfl, rfl, rfl, rfl, rfl, rfl, by decide⟩
  · exact run_init_reachable [(1, 5)] _ (by decide) rfl
  · exact run_init_reachable [(1, 5), (1, 1), (1, 5)] _ (by decide) rfl

/-- C12, amended: with the random gate of the current state on its
non-triggering branch, for any two reachable machines with the same current
mood S and any approach in 1..6, `updateMood` returns in both with the same
resulting mood, provided the two moodLevels are equal when (S, approach) is
(Sad, Neutral), (Fearful, Fearful) or (Fearful, Friendly), the pairs whose
handling tests moodLevel. -/
theorem C12_next_mood_determined (m1 m2 : Machine) (S : Mood) (a : Int) (r1 r2 : Nat)
    (h1 : Reachable m1) (h2 : Reachable m2)
    (c1 : m1.currentState = some S) (c2 : m2.currentState = some S)
    (ha : 1 ≤ a ∧ a ≤ 6)
    (gN : S = Mood.Neutral → r1 % 50 ≠ 0 ∧ r2 % 50 ≠ 0)
    (gA : S = Mood.Angry → r1 % 10 ≠ 0 ∧ r2 % 10 ≠ 0)
    (hl : (S = Mood.Sad ∧ a = 6) ∨ (S = Mood.Fearful ∧ a = 5) ∨
        (S = Mood.Fearful ∧ a = 1) → m1.moodLevel = m2.moodLevel) :
    ∃ m1' m2', updateMood m1 r1 a = .continues m1' ∧
      updateMood m2 r2 a = .continues m2' ∧ m1'.currentState = m2'.currentState := by
  obtain ⟨-, reg1⟩ := reachable_inv m1 h1
  obtain ⟨-, reg2⟩ := reachable_inv m2 h2
  have tab : ∀ T, specTable S a = some T →
      ∃ m1' m2', updateMood m1 r1 a = .continues m1' ∧
        updateMood m2 r2 a = .continues m2' ∧ m1'.currentState = m2'.currentState := by
    intro T hT
    obtain ⟨m1', e1, k1, -⟩ := table_step m1 S T a r1 c1 reg1 (fun h => (gN h).1)
      (fun h => (gA h).1) hT
    obtain ⟨m2', e2, k2, -⟩ := table_step m2 S T a r2 c2 reg2 (fun h => (gN h).2)
      (fun h => (gA h).2) hT
    exact ⟨m1', m2', e1, e2, k1.trans k2.symm⟩
  have ha' : a = 1 ∨ a = 2 ∨ a = 3 ∨ a = 4 ∨ a = 5 ∨ a = 6 := by omega
  by_cases hT : ∃ T, specTable S a = some T
  · obtain ⟨T, hT⟩ := hT
    exact tab T hT
  · have hcase : (S = Mood.Sad ∧ a = 6) ∨ (S = Mood.Fearful ∧ a = 5) ∨
        (S = Mood.Fearful ∧ a = 1) := by
      cases S <;> rcases ha' with e | e | e | e | e | e <;> subst e <;>
        first
          | (simp; done)
          | exact absurd ⟨_, rfl⟩ hT
    have hml := hl hcase
    rcases hcase with ⟨eS, ea⟩ | ⟨eS, ea⟩ | ⟨eS, ea⟩
    · subst eS ea
      rw [sad_neutral_step m1 r1 c1 reg1, sad_neutral_step m2 r2 c2 reg2, hml]
      split_ifs
      · exact ⟨_, _, rfl, rfl, rfl⟩
      · exact ⟨_, _, rfl, rfl, rfl⟩
      · exact ⟨_, _, rfl, rfl, c1.trans c2.symm⟩
    · subst eS ea
      rw [fearful_fearful_step m1 r1 c1 reg1, fearful_fearful_step m2 r2 c2 reg2, hml]
      split_ifs
      · exact ⟨_, _, rfl, rfl, rfl⟩
      · exact ⟨_, _, rfl, rfl, c1.trans c2.symm⟩
    · subst eS ea
      rw [fearful_friendly_step m1 r1 c1 reg1, fearful_friendly_step m2 r2 c2 reg2, hml]
      split_ifs
      · exact ⟨_, _, rfl, rfl, rfl⟩
      · exact ⟨_, _, rfl, rfl, rfl⟩

/-- C12, amended, at two reachable Neutral machines (after start-up, and
after one turn with the Neutral choice): the Aggressive approach moves both
to the same mood. -/
theorem C12_next_mood_determined_witness :
    ∃ m1' m2',
      updateMood ⟨some Mood.Neutral, registry, 0, [Mood.Neutral.enterLine],
        [Event.request 1, Event.enter Mood.Neutral]⟩ 1 2 = .continues m1' ∧
      updateMood ⟨some Mood.Neutral, registry, 0,
        [Mood.Neutral.enterLine, Mood.Neutral.moodLine],
        [Event.request 1, Event.enter Mood.Neutral]⟩ 7 2 = .continues m2' ∧
      m1'.currentState = m2'.currentState :=
  C12_next_mood_determined _ _ Mood.Neutral 2 1 7
    (run_init_reachable [] _ (by decide) rfl)
    (run_init_reachable [(1, 6)] _ (by decide) rfl)
    rfl rfl (by decide) (by decide) (by decide) (by decide)

/-! ## Reachability of the moods, and the Angry state -/

/-- C13: for each of the six moods there is a finite list of turns, with
choices in 1..6 and values of `rand()` that trigger neither random gate,
whose run from `InitializeStates` returns with that mood current. -/
theorem C13_all_moods_reachable (M : Mood) :
    ∃ l : List (Nat × Int),
      (∀ p ∈ l, (1 ≤ p.2 ∧ p.2 ≤ 6) ∧ p.1 % 50 ≠ 0 ∧ p.1 % 10 ≠ 0) ∧
      ∃ m, run InitializeStates l = .continues m ∧ m.currentState = some M := by
  cases M
  · exact ⟨[(1, 1)], by decide, _, rfl, rfl⟩
  · exact ⟨[], by decide, _, rfl, rfl⟩
  · exact ⟨[(1, 2)], by decide, _, rfl, rfl⟩
  · exact ⟨[(1, 3)], by decide, _, rfl, rfl⟩
  · exact ⟨[(1, 4)], by decide, _, rfl, rfl⟩
  · exact ⟨[(1, 5)], by decide, _, rfl, rfl⟩

/-- In Angry, an approach other than 1 with a roll that does not terminate
returns the machine unchanged. -/
theorem angry_stay (m : Machine) (roll : Nat) (a : Int)
    (hcur : m.currentState = some Mood.Angry) (ha : a ≠ 1) (hr : roll % 10 ≠ 0) :
    updateMood m roll a = .continues m := by
  simp [updateMood, hcur, Mood.updateMood, AngryState.updateMood, ha, hr]

/-- C14: from Angry, for every finite list of approaches none of which is
Friendly (1) and rolls none of which triggers termination, the successive
`updateMood` calls return the machine unchanged (mood Angry after every
step, nothing written, no hook called), and the turns of `main` (with
`expressMood` after each) keep the mood Angry and the call trace, writing
only the monologue line of Angry once per turn. A single `updateMood` from
Angry (with the registry of `InitializeStates`) leaves the mood Neutral
exactly when the approach is Friendly and the roll does not terminate, and
Angry in every other case. -/
theorem C14_angry_stuck :
    (∀ (m : Machine) (l : List (Nat × Int)), m.currentState = some Mood.Angry →
      (∀ p ∈ l, p.2 ≠ 1 ∧ p.1 % 10 ≠ 0) →
      updateMoods (.continues m) l = .continues m) ∧
    (∀ (m : Machine) (l : List (Nat × Int)), m.currentState = some Mood.Angry →
      (∀ p ∈ l, p.2 ≠ 1 ∧ p.1 % 10 ≠ 0) →
      run (.continues m) l = .continues
        { currentState := some Mood.Angry, states := m.states, moodLevel := m.moodLevel,
          out := m.out ++ List.replicate l.length Mood.Angry.moodLine,
          trace := m.trace }) ∧
    (∀ (m : Machine) (roll : Nat) (a : Int), m.currentState = some Mood.Angry →
      m.states = registry →
      (updateMood m roll a).machine.currentState =
        some (if a = 1 ∧ roll % 10 ≠ 0 then Mood.Neutral else Mood.Angry)) := by
  refine ⟨?_, ?_, ?_⟩
  · intro m l hcur hl
    induction l with
    | nil => rfl
    | cons p rest ih =>
      obtain ⟨roll, a⟩ := p
      have hp := hl (roll, a) (List.mem_cons_self _ _)
      simp only [updateMoods, angry_stay m roll a hcur hp.1 hp.2]
      exact ih fun q hq => hl q (List.mem_cons_of_mem _ hq)
  · intro m l hcur hl
    induction l generalizing m with
    | nil =>
      obtain ⟨cur, states, ml, out, tr⟩ := m
      simp only at hcur
      subst hcur
      simp [run]
    | cons p rest ih =>
      obtain ⟨roll, a⟩ := p
      have hp := hl (roll, a) (List.mem_cons_self _ _)
      simp only [run, turn, angry_stay m roll a hcur hp.1 hp.2, expressMood, hcur,
        Mood.expressMood]
      rw [ih _ rfl fun q hq => hl q (List.mem_cons_of_mem _ hq)]
      simp [List.replicate_succ]
  · intro m roll a hcur hreg
    by_cases hr : roll % 10 = 0
    · simp [updateMood, hcur, Mood.updateMood, AngryState.updateMood, hr, Outcome.machine]
    · by_cases ha : a = 1
      · subst ha
        have e := transition_from m Mood.Angry Mood.Neutral hcur hreg
        simp only [Mood.id] at e
        simp [updateMood, hcur, Mood.updateMood, AngryState.updateMood, hr, e,
          Outcome.machine]
      · simp [angry_stay m roll a hcur ha hr, Outcome.machine, ha, hcur]

/-- C14 at a concrete machine: in Angry, the approaches Aggressive, Neutral,
Sad with rolls 1, 2, 3 return the machine unchanged. -/
theorem C14_angry_stuck_witness :
    updateMoods (.continues ⟨some Mood.Angry, registry, 0, ["x"], []⟩)
      [(1, 2), (2, 6), (3, 4)] = .continues ⟨some Mood.Angry, registry, 0, ["x"], []⟩ :=
  C14_angry_stuck.1 ⟨some Mood.Angry, registry, 0, ["x"], []⟩ [(1, 2), (2, 6), (3, 4)] rfl
    (by decide)

/-! ## The registry after start-up -/

/-- With the registry of `InitializeStates`, a transition to a key in 0..5
ends with a non-null current state and the same registry. -/
theorem transition_keeps (m : Machine) (newState : Int) (hreg : m.states = registry)
    (hk : 0 ≤ newState ∧ newState ≤ 5) :
    (∃ s, (updateAndCheckTransitions m newState).machine.currentState = some s) ∧
      (updateAndCheckTransitions m newState).machine.states = registry := by
  have hk' : newState = 0 ∨ newState = 1 ∨ newState = 2 ∨ newState = 3 ∨ newState = 4 ∨
      newState = 5 := by omega
  have key : ∀ t : Mood, newState = t.id →
      (∃ s, (updateAndCheckTransitions m newState).machine.currentState = some s) ∧
      (updateAndCheckTransitions m newState).machine.states = registry := by
    intro t ht
    rw [ht, transition_registry m t hreg]
    exact ⟨⟨t, rfl⟩, rfl⟩
  rcases hk' with e | e | e | e | e | e
  · exact key Mood.Happy e
  · exact key Mood.Neutral e
  · exact key Mood.Angry e
  · exact key Mood.Confused e
  · exact key Mood.Sad e
  · exact key Mood.Fearful e

/-- For every integer approach and value of `rand()`, and whatever way the
call ends, `updateMood` keeps a non-null current state and the registry. -/
theorem updateMood_keeps (m : Machine) (roll : Nat) (a : Int)
    (hcur : ∃ s, m.currentState = some s) (hreg : m.states = registry) :
    (∃ s, (updateMood m roll a).machine.currentState = some s) ∧
      (updateMood m roll a).machine.states = registry := by
  obtain ⟨s, hs⟩ := hcur
  have stay : (∃ s, m.currentState = some s) ∧ m.states = registry := ⟨⟨s, hs⟩, hreg⟩
  simp only [updateMood, hs]
  cases s <;>
    simp only [Mood.updateMood, HappyState.updateMood, NeutralState.updateMood,
      AngryState.updateMood, ConfusedState.updateMood, SadState.updateMood,
      FearfulState.updateMood, FearfulState.moodCheck] <;>
    split_ifs <;>
    first
      | exact stay
      | exact transition_keeps _ _ hreg (by omega)

/-- Any list of calls keeps a non-null current state and the registry. -/
theorem calls_keeps (l : List Call) (o : Outcome)
    (hcur : ∃ s, o.machine.currentState = some s) (hreg : o.machine.states = registry) :
    (∃ s, (calls o l).machine.currentState = some s) ∧
      (calls o l).machine.states = registry := by
  induction l generalizing o with
  | nil =>
    cases o <;> exact ⟨hcur, hreg⟩
  | cons c rest ih =>
    cases o with
    | continues m =>
      cases c with
      | updateMood roll a =>
        obtain ⟨h1, h2⟩ := updateMood_keeps m roll a hcur hreg
        exact ih _ h1 h2
      | expressMood =>
        obtain ⟨s, hs⟩ := hcur
        simp only [Outcome.machine] at hs hreg
        refine ih _ ?_ ?_ <;> simp [expressMood, hs, Mood.expressMood, Outcome.machine, hreg]
    | terminates m => exact ⟨hcur, hreg⟩
    | fault f m => exact ⟨hcur, hreg⟩

/-- C15: after `InitializeStates` and any finite list of `updateMood` and
`expressMood` calls, with any integer approaches and any values of
`rand()`, however the last call ends, the registry holds exactly the keys
0..5 mapped to the objects of Happy, Neutral, Angry, Confused, Sad, Fearful
(no entry added, removed or replaced), the current state is non-null and is
one of these six entries, and `CleanupStates` deletes exactly these six
pointers, each once, and empties the registry. -/
theorem C15_registry_immutable (l : List Call) :
    (calls InitializeStates l).machine.states =
      [(0, some Mood.Happy), (1, some Mood.Neutral), (2, some Mood.Angry),
       (3, some Mood.Confused), (4, some Mood.Sad), (5, some Mood.Fearful)] ∧
    (∃ s, (calls InitializeStates l).machine.currentState = some s ∧
      (s.id, some s) ∈ (calls InitializeStates l).machine.states) ∧
    (CleanupStates (calls InitializeStates l).machine).1 =
      [some Mood.Happy, some Mood.Neutral, some Mood.Angry, some Mood.Confused,
       some Mood.Sad, some Mood.Fearful] ∧
    (CleanupStates (calls InitializeStates l).machine).2.states = [] := by
  obtain ⟨⟨s, hs⟩, hreg⟩ := calls_keeps l InitializeStates ⟨Mood.Neutral, rfl⟩ rfl
  refine ⟨hreg, ⟨s, hs, ?_⟩, ?_, rfl⟩
  · rw [hreg]
    cases s <;> simp [registry, Mood.id]
  · simp only [CleanupStates, hreg]
    rfl

/-! ## The fall-through rules of Fearful and Sad -/

/-- C16, counterexample: in Fearful with moodLevel m = 2147483646 (an `int`
value, with m + 2 > 0) the Friendly approach neither sets moodLevel to m + 2
nor ends in Neutral: the addition overflows, moodLevel wraps around to
-2147483648, and the call returns in Fearful with no transition. -/
theorem C16_counterexample :
    (2147483646 : Int) ≤ INT_MAX ∧ (2147483646 : Int) + 2 > 0 ∧
    updateMood ⟨some Mood.Fearful, registry, 2147483646, ["x"], []⟩ 7 1 =
      .continues ⟨some Mood.Fearful, registry, -2147483648, ["x"], []⟩ := by
  refine ⟨by decide, by decide, ?_⟩
  rw [fearful_friendly_step _ 7 rfl rfl]
  rfl

/-- C16, amended: for every moodLevel m, in Fearful (with the registry of
`InitializeStates`): the Friendly approach (1), whenever m + 2 is an `int`
value (m + 2 ≤ INT_MAX), sets moodLevel to m + 2 and then moves to Neutral
if m + 2 > 0 and returns in Fearful with no transition otherwise (when
m ≤ INT_MAX and m + 2 exceeds INT_MAX the addition overflows: moodLevel
wraps around to m + 2 - 2^32 and the call returns in Fearful with no
transition); the Fearful approach (5) leaves moodLevel at m and moves to
Neutral if m > 0 and returns the machine unchanged otherwise. In both the
branches m > -2 and m ≤ -2 make no transition. -/
theorem C16_fearful_fallthrough (m : Machine) (roll : Nat)
    (hcur : m.currentState = some Mood.Fearful) (hreg : m.states = registry) :
    (m.moodLevel + 2 ≤ INT_MAX →
      updateMood m roll 1 =
        if m.moodLevel + 2 > 0 then .continues
          { currentState := some Mood.Neutral, states := m.states,
            moodLevel := m.moodLevel + 2, out := m.out ++ [Mood.Neutral.enterLine],
            trace := m.trace ++
              [Event.request 1, Event.exit Mood.Fearful, Event.enter Mood.Neutral] }
        else .continues
          { currentState := some Mood.Fearful, states := m.states,
            moodLevel := m.moodLevel + 2, out := m.out, trace := m.trace }) ∧
    (INT_MAX < m.moodLevel + 2 → m.moodLevel ≤ INT_MAX →
      updateMood m roll 1 = .continues
        { currentState := some Mood.Fearful, states := m.states,
          moodLevel := m.moodLevel + 2 - 4294967296, out := m.out, trace := m.trace }) ∧
    (updateMood m roll 5 =
      if m.moodLevel > 0 then .continues
        { currentState := some Mood.Neutral, states := m.states,
          moodLevel := m.moodLevel, out := m.out ++ [Mood.Neutral.enterLine],
          trace := m.trace ++
            [Event.request 1, Event.exit Mood.Fearful, Event.enter Mood.Neutral] }
      else .continues m) := by
  refine ⟨?_, ?_, fearful_fearful_step m roll hcur hreg⟩
  · intro hmax
    rw [fearful_friendly_step m roll hcur hreg, addTwo_of_le _ hmax]
  · intro hover hle
    rw [fearful_friendly_step m roll hcur hreg, addTwo_of_gt _ hover, if_neg]
    unfold INT_MAX at hle
    omega

/-- C16, amended, at a concrete machine: in Fearful with moodLevel -4 the
Friendly approach gives moodLevel -2 and stays Fearful. -/
theorem C16_fearful_fallthrough_witness :
    updateMood ⟨some Mood.Fearful, registry, -4, [], []⟩ 3 1 =
      .continues ⟨some Mood.Fearful, registry, -2, [], []⟩ :=
  (C16_fearful_fallthrough ⟨some Mood.Fearful, registry, -4, [], []⟩ 3 rfl rfl).1
    (by decide)

/-- C17: for every moodLevel m, in Sad (with the registry of
`InitializeStates`): the Neutral approach (6) moves to Happy if m > 2, to
Neutral if -2 < m ≤ 2, and returns the machine unchanged (mood Sad, no
transition, no entry line) if m ≤ -2, moodLevel being unchanged in all
three; for each approach in 1..5 the direct transition is taken whatever m
is: the resulting mood is the target of the table (Friendly to Neutral,
Aggressive to Angry, Confused to Confused, Sad to Sad, Fearful to Fearful)
and moodLevel is unchanged. -/
theorem C17_sad_fallthrough (m : Machine) (roll : Nat)
    (hcur : m.currentState = some Mood.Sad) (hreg : m.states = registry) :
    (updateMood m roll 6 =
      if m.moodLevel > 2 then .continues
        { currentState := some Mood.Happy, states := m.states,
          moodLevel := m.moodLevel, out := m.out ++ [Mood.Happy.enterLine],
          trace := m.trace ++
            [Event.request 0, Event.exit Mood.Sad, Event.enter Mood.Happy] }
      else if m.moodLevel > -2 then .continues
        { currentState := some Mood.Neutral, states := m.states,
          moodLevel := m.moodLevel, out := m.out ++ [Mood.Neutral.enterLine],
          trace := m.trace ++
            [Event.request 1, Event.exit Mood.Sad, Event.enter Mood.Neutral] }
      else .continues m) ∧
    (∀ (a : Int) (T : Mood),
      (a = 1 ∧ T = Mood.Neutral) ∨ (a = 2 ∧ T = Mood.Angry) ∨ (a = 3 ∧ T = Mood.Confused) ∨
        (a = 4 ∧ T = Mood.Sad) ∨ (a = 5 ∧ T = Mood.Fearful) →
      updateMood m roll a = .continues
        { currentState := some T, states := m.states, moodLevel := m.moodLevel,
          out := m.out ++ [T.enterLine],
          trace := m.trace ++ [Event.request T.id, Event.exit Mood.Sad, Event.enter T] }) := by
  refine ⟨sad_neutral_step m roll hcur hreg, ?_⟩
  intro a T h
  rcases h with ⟨ha, hT⟩ | ⟨ha, hT⟩ | ⟨ha, hT⟩ | ⟨ha, hT⟩ | ⟨ha, hT⟩ <;> subst ha hT
  all_goals
    rw [← transition_from m Mood.Sad _ hcur hreg]
    simp [updateMood, hcur, Mood.updateMood, SadState.updateMood, Mood.id]

/-- C17 at a concrete machine: in Sad with moodLevel 2 the Neutral approach
moves to Neutral. -/
theorem C17_sad_fallthrough_witness :
    updateMood ⟨some Mood.Sad, registry, 2, [], []⟩ 0 6 = .continues
      ⟨some Mood.Neutral, registry, 2, [Mood.Neutral.enterLine],
        [Event.request 1, Event.exit Mood.Sad, Event.enter Mood.Neutral]⟩ :=
  (C17_sad_fallthrough ⟨some Mood.Sad, registry, 2, [], []⟩ 0 rfl rfl).1

/-! ## The invariant of moodLevel -/

/-- The moodLevel after an `updateMood` that returns. -/
theorem updateMood_returns_moodLevel (m m' : Machine) (roll : Nat) (a : Int)
    (h : updateMood m roll a = .continues m') :
    m'.moodLevel =
      if m.currentState = some Mood.Fearful ∧ a = 1
      then addTwo m.moodLevel else m.moodLevel := by
  have key := updateMood_moodLevel m roll a
  rw [h] at key
  exact key

/-- The moodLevel after a turn of `main` that returns. -/
theorem turn_moodLevel (m m' : Machine) (roll : Nat) (a : Int)
    (h : turn m roll a = .continues m') :
    m'.moodLevel =
      if m.currentState = some Mood.Fearful ∧ a = 1
      then addTwo m.moodLevel else m.moodLevel := by
  cases hu : updateMood m roll a with
  | continues n =>
    rw [← updateMood_returns_moodLevel m n roll a hu]
    simp only [turn, hu, expressMood] at h
    split at h
    · cases h
      rfl
    · cases h
  | terminates n =>
    simp only [turn, hu] at h
    cases h
  | fault f n =>
    simp only [turn, hu] at h
    cases h

/-- Along a run that returns, as long as the sums stay at most `INT_MAX`,
moodLevel grows by two for each Friendly choice handled in Fearful. -/
theorem run_moodLevel (l : List (Nat × Int)) (m m' : Machine)
    (h : run (.continues m) l = .continues m')
    (hb : m.moodLevel + 2 * (fearfulFriendlyCount (.continues m) l : Int) ≤ INT_MAX) :
    m'.moodLevel = m.moodLevel + 2 * (fearfulFriendlyCount (.continues m) l : Int) := by
  induction l generalizing m with
  | nil =>
    simp only [run] at h
    cases h
    simp [fearfulFriendlyCount]
  | cons p rest ih =>
    obtain ⟨roll, a⟩ := p
    simp only [run] at h
    cases ht : turn m roll a with
    | continues n =>
      rw [ht] at h
      have h2 := turn_moodLevel m n roll a ht
      simp only [fearfulFriendlyCount, ht] at hb ⊢
      by_cases hc : m.currentState = some Mood.Fearful ∧ a = 1
      · rw [if_pos hc] at h2 hb ⊢
        push_cast at hb ⊢
        have hn : n.moodLevel = m.moodLevel + 2 := by
          rw [h2, addTwo_of_le _ (by omega)]
        rw [ih n h (by rw [hn]; omega), hn]
        ring
      · rw [if_neg hc] at h2 hb ⊢
        push_cast at hb ⊢
        rw [ih n h (by rw [h2]; omega), h2]
        ring
    | terminates n =>
      rw [ht] at h
      cases rest <;> cases h
    | fault f n =>
      rw [ht] at h
      cases rest <;> cases h

/-- Every even level from 0 to `INT_MAX - 1` is the moodLevel of a reachable
machine whose current mood is Fearful: repeat the choices Friendly, Fearful. -/
theorem reachable_fearful_level (k : Nat) (hk : 2 * (k : Int) ≤ INT_MAX - 1) :
    ∃ m, Reachable m ∧ m.currentState = some Mood.Fearful ∧ m.moodLevel = 2 * (k : Int) := by
  have toFearful : ∀ n : Machine, Reachable n → n.currentState = some Mood.Neutral →
      ∃ m, Reachable m ∧ m.currentState = some Mood.Fearful ∧
        m.moodLevel = n.moodLevel := by
    intro n hn hcur
    obtain ⟨-, hreg⟩ := reachable_inv n hn
    obtain ⟨m, e, c, -⟩ := table_step n Mood.Neutral Mood.Fearful 5 1 hcur hreg
      (by decide) (by decide) rfl
    refine ⟨m, Reachable.update n m 1 5 hn (by decide) e, c, ?_⟩
    rw [updateMood_returns_moodLevel n m 1 5 e]
    simp
  induction k with
  | zero =>
    obtain ⟨m0, e, c, -, l⟩ := initialize_current
    obtain ⟨m, hm, hc, hl⟩ := toFearful m0 (Reachable.init m0 e) c
    exact ⟨m, hm, hc, by rw [hl, l]; simp⟩
  | succ k ih =>
    push_cast at hk
    obtain ⟨m, hm, hc, hl⟩ := ih (by omega)
    obtain ⟨-, hreg⟩ := reachable_inv m hm
    have hstep := fearful_friendly_step m 1 hc hreg
    rw [addTwo_of_le _ (by omega), if_pos (by omega)] at hstep
    obtain ⟨m', hm', hc', hl'⟩ := toFearful _ (Reachable.update m _ 1 1 hm (by decide) hstep)
      rfl
    refine ⟨m', hm', hc', ?_⟩
    rw [hl']
    push_cast
    simp only [hl]
    ring

/-- The overflowing call: a reachable machine in Fearful with moodLevel
2147483646 (reached by the choice Fearful followed by 1073741823 rounds of
Friendly, Fearful), in which the Friendly approach returns in Fearful with
moodLevel -2147483648, a machine that is reachable in turn. -/
theorem overflow_step :
    ∃ m m', Reachable m ∧ m.currentState = some Mood.Fearful ∧ m.moodLevel = 2147483646 ∧
      updateMood m 1 1 = .continues m' ∧ Reachable m' ∧
      m'.currentState = some Mood.Fearful ∧ m'.moodLevel = -2147483648 := by
  obtain ⟨m, hm, hc, hl⟩ := reachable_fearful_level 1073741823 (by decide)
  obtain ⟨-, hreg⟩ := reachable_inv m hm
  have hl' : m.moodLevel = 2147483646 := by rw [hl]; norm_num
  have hadd : addTwo m.moodLevel = -2147483648 := by rw [hl']; rfl
  have hstep := fearful_friendly_step m 1 hc hreg
  rw [hadd, if_neg (by decide)] at hstep
  exact ⟨m, _, hm, hc, hl', hstep, Reachable.update m _ 1 1 hm (by decide) hstep, rfl, rfl⟩

/-- C18, counterexample: in the reachable machine in Fearful with moodLevel
2147483646 the Friendly approach returns with moodLevel -2147483648: along
that run moodLevel has decreased, the machine it reaches has a negative
moodLevel, and the guard moodLevel ≤ -2 of the final branch of
`FearfulState::updateMood` holds in that call. -/
theorem C18_counterexample :
    ∃ m m', Reachable m ∧ updateMood m 1 1 = .continues m' ∧ Reachable m' ∧
      m'.moodLevel < m.moodLevel ∧ m'.moodLevel < 0 ∧ m'.moodLevel ≤ -2 := by
  obtain ⟨m, m', hm, -, hl, hstep, hm', -, hl'⟩ := overflow_step
  exact ⟨m, m', hm, hstep, hm', by rw [hl, hl']; decide, by rw [hl']; decide,
    by rw [hl']; decide⟩

/-- C18, amended: along every run of `main` from `InitializeStates` that
returns, with choices in 1..6 and any values of `rand()`, in which 2 times
the number of Friendly choices handled while the current state was Fearful
is at most `INT_MAX`, moodLevel equals that product, a non-negative even
integer, so the guard moodLevel ≤ -2 of the last branch of
`SadState::updateMood` and of `FearfulState::updateMood` is false there; and
moodLevel does not decrease along a run, nor in a single `updateMood`, whose
sums stay at most `INT_MAX`. -/
theorem C18_moodLevel_invariant :
    (∀ (l : List (Nat × Int)) (m : Machine), (∀ p ∈ l, 1 ≤ p.2 ∧ p.2 ≤ 6) →
      run InitializeStates l = .continues m →
      2 * (fearfulFriendlyCount InitializeStates l : Int) ≤ INT_MAX →
      m.moodLevel = 2 * (fearfulFriendlyCount InitializeStates l : Int) ∧
        0 ≤ m.moodLevel ∧ 2 ∣ m.moodLevel ∧ ¬ m.moodLevel ≤ -2) ∧
    (∀ (l : List (Nat × Int)) (m m' : Machine),
      run (.continues m) l = .continues m' →
      m.moodLevel + 2 * (fearfulFriendlyCount (.continues m) l : Int) ≤ INT_MAX →
      m.moodLevel ≤ m'.moodLevel) ∧
    (∀ (m m' : Machine) (roll : Nat) (a : Int),
      updateMood m roll a = .continues m' → m.moodLevel + 2 ≤ INT_MAX →
      m.moodLevel ≤ m'.moodLevel) := by
  refine ⟨?_, ?_, ?_⟩
  · intro l m _ h hb
    obtain ⟨m0, e, -, -, l0⟩ := initialize_current
    rw [e] at h hb ⊢
    have key := run_moodLevel l m0 m h (by rw [l0]; omega)
    rw [l0, zero_add] at key
    refine ⟨key, by rw [key]; omega, by rw [key]; exact dvd_mul_right 2 _,
      by rw [key]; omega⟩
  · intro l m m' h hb
    rw [run_moodLevel l m m' h hb]
    omega
  · intro m m' roll a h hb
    rw [updateMood_returns_moodLevel m m' roll a h]
    split_ifs
    · rw [addTwo_of_le _ hb]
      omega
    · exact le_refl _

/-- C18, amended, at a concrete run: after the choices Fearful, Friendly,
Fearful, Friendly the count is 2 and moodLevel is 4. -/
theorem C18_moodLevel_invariant_witness :
    (4 : Int) =
      2 * (fearfulFriendlyCount InitializeStates [(1, 5), (1, 1), (1, 5), (1, 1)] : Int) :=
  (C18_moodLevel_invariant.1 [(1, 5), (1, 1), (1, 5), (1, 1)]
    ⟨some Mood.Neutral, registry, 4,
      [Mood.Neutral.enterLine, Mood.Fearful.enterLine, Mood.Fearful.moodLine,
        Mood.Neutral.enterLine, Mood.Neutral.moodLine, Mood.Fearful.enterLine,
        Mood.Fearful.moodLine, Mood.Neutral.enterLine, Mood.Neutral.moodLine],
      [Event.request 1, Event.enter Mood.Neutral,
        Event.request 5, Event.exit Mood.Neutral, Event.enter Mood.Fearful,
        Event.request 1, Event.exit Mood.Fearful, Event.enter Mood.Neutral,
        Event.request 5, Event.exit Mood.Neutral, Event.enter Mood.Fearful,
        Event.request 1, Event.exit Mood.Fearful, Event.enter Mood.Neutral]⟩
    (by decide) rfl (by decide)).1

/-! ## Fearful after a Friendly approach -/

/-- C19, evaluation at the failing input: in the reachable machine in Fearful
with moodLevel 2147483646 (the choice Fearful followed by 1073741823 rounds
of Friendly, Fearful) the Friendly approach returns with the current mood
still Fearful, not Neutral: moodLevel has wrapped around to -2147483648,
which is not greater than 0. -/
theorem C19_friendly_stays_fearful :
    ∃ m m', Reachable m ∧ m.currentState = some Mood.Fearful ∧ m.moodLevel = 2147483646 ∧
      updateMood m 1 1 = .continues m' ∧ m'.currentState = some Mood.Fearful ∧
      m'.currentState ≠ some Mood.Neutral ∧ m'.moodLevel = -2147483648 := by
  obtain ⟨m, m', hm, hc, hl, hstep, -, hc', hl'⟩ := overflow_step
  exact ⟨m, m', hm, hc, hl, hstep, hc', by rw [hc']; decide, hl'⟩

/-- C20, evaluation at the failing input: in the reachable machine in Fearful
with moodLevel 2147483646, which is greater than 0, the Friendly approach,
an approach in 1..6, does not leave Fearful, and the machine it returns is
reachable with a moodLevel that is no longer greater than 0. -/
theorem C20_positive_level_lost :
    ∃ m m', Reachable m ∧ m.currentState = some Mood.Fearful ∧ 0 < m.moodLevel ∧
      updateMood m 1 1 = .continues m' ∧ Reachable m' ∧
      m'.currentState = some Mood.Fearful ∧ ¬ 0 < m'.moodLevel := by
  obtain ⟨m, m', hm, hc, hl, hstep, hm', hc', hl'⟩ := overflow_step
  exact ⟨m, m', hm, hc, by rw [hl]; decide, hstep, hm', hc', by rw [hl']; decide⟩

end FSM
